import Mathlib

/-!
Shallow embedding of the wordmap generator script (`wordmap_generator.py`).

Text is modelled as lists of natural-number code points (the script's
heuristics are explicitly ASCII/English-only).  Every definition mirrors the
corresponding Python function; regular-expression operations are embedded as
the exact scanning behaviour of the two patterns the script uses.
-/

/-- ASCII decimal digit, Python regex class `\d` restricted to ASCII. -/
def isDigitN (c : Nat) : Bool := decide (48 ≤ c ∧ c ≤ 57)

/-- ASCII lowercase letter, regex class `[a-z]`. -/
def isLowerN (c : Nat) : Bool := decide (97 ≤ c ∧ c ≤ 122)

/-- ASCII uppercase letter; Python `str.isupper` on a single ASCII char. -/
def isUpperN (c : Nat) : Bool := decide (65 ≤ c ∧ c ≤ 90)

/-- ASCII letter (a cased character in ASCII). -/
def isAlphaN (c : Nat) : Bool := isUpperN c || isLowerN c

/-- Python whitespace / regex class `\s`: space, tab, LF, VT, FF, CR. -/
def isPySpace (c : Nat) : Bool :=
  decide (c = 32 ∨ c = 9 ∨ c = 10 ∨ c = 11 ∨ c = 12 ∨ c = 13)

/-- Regex class `\w` restricted to ASCII: letters, digits, underscore. -/
def isWordChar (c : Nat) : Bool := isAlphaN c || isDigitN c || decide (c = 95)

/-- Python `str.lower` on one ASCII code point. -/
def pyLowerChar (c : Nat) : Nat := if isUpperN c then c + 32 else c

/-- Python `str.lower` over a text. -/
def pyLower (l : List Nat) : List Nat := l.map pyLowerChar

/-- Code points of a string literal, for concrete test inputs. -/
def strL (s : String) : List Nat := s.data.map Char.toNat

/-- Python `str.isdigit` (ASCII): nonempty and all digits. -/
def pyIsDigit (l : List Nat) : Bool := !l.isEmpty && l.all isDigitN

/-- Python `str.isupper` (ASCII): at least one cased character and no
lowercase cased character. -/
def pyStrIsUpper (l : List Nat) : Bool :=
  l.any isAlphaN && l.all (fun c => !isLowerN c)

/-- Remove the characters satisfying `p` from both ends of a text,
the shared core of Python `str.strip`. -/
def stripBy (p : Nat → Bool) (l : List Nat) : List Nat :=
  ((l.dropWhile p).reverse.dropWhile p).reverse

/-- Python `str.strip(chars)`: remove any of `chars` from both ends. -/
def pyStrip (chars : List Nat) (l : List Nat) : List Nat :=
  stripBy (fun c => chars.contains c) l

/-- Python `str.strip()` with no argument: strip whitespace. -/
def pyStripWs (l : List Nat) : List Nat := stripBy isPySpace l

/-- Worker for Python `str.split()` with no separator: `acc` holds the
current token reversed. -/
def splitWsGo : List Nat → List Nat → List (List Nat)
  | [], acc => if acc.isEmpty then [] else [acc.reverse]
  | c :: rest, acc =>
    if isPySpace c then
      if acc.isEmpty then splitWsGo rest [] else acc.reverse :: splitWsGo rest []
    else splitWsGo rest (c :: acc)

/-- Python `str.split()`: split on whitespace runs, no empty tokens. -/
def splitWs (l : List Nat) : List (List Nat) := splitWsGo l []

/-- Scanner for `re.sub(r'\d+[a-z]*', '', text)`.  Mode 0 scans for a match
start, mode 1 is inside the `\d+` part, mode 2 inside the `[a-z]*` part;
matched characters are dropped, everything else is kept. -/
def rnAux : Nat → List Nat → List Nat
  | _, [] => []
  | 0, c :: rest =>
    if isDigitN c then rnAux 1 rest else c :: rnAux 0 rest
  | 1, c :: rest =>
    if isDigitN c then rnAux 1 rest
    else if isLowerN c then rnAux 2 rest
    else c :: rnAux 0 rest
  | _ + 2, c :: rest =>
    if isLowerN c then rnAux 2 rest
    else if isDigitN c then rnAux 1 rest
    else c :: rnAux 0 rest

/-- `re.sub(r'\d+[a-z]*', '', text)`: delete every numeric-with-optional-
trailing-lowercase-letters match, replacing it with nothing. -/
def removeNumbers (l : List Nat) : List Nat := rnAux 0 l

/-- `re.sub(r'[^\w\s-]', ' ', text)`: replace every character that is not a
word character, whitespace or hyphen with a space (code point 32). -/
def punctToSpace (l : List Nat) : List Nat :=
  l.map (fun c => if isWordChar c || isPySpace c || c = 45 then c else 32)

/-- The `STOP_WORDS` set of the script, entries in source order
(set-literal duplicates kept; membership is unaffected). -/
def STOP_WORDS : List (List Nat) :=
  ([ "a", "an", "and", "are", "as", "at", "be", "by", "for", "from", "has", "he",
    "in", "is", "it", "its", "of", "on", "that", "the", "to", "was", "will",
    "with", "i", "am", "my", "we", "this", "have", "been", "would", "using",
    "use", "also", "can", "may", "or", "but", "if", "so", "than", "do", "does",
    "did", "which", "these", "those", "such", "into", "through", "during",
    "before", "after", "above", "below", "between", "under", "over", "both",
    "each", "few", "more", "most", "other", "some", "there", "their", "them",
    "then", "when", "where", "who", "why", "how", "all", "any", "been", "being",
    "could", "having", "her", "here", "him", "his", "me", "not", "now", "only",
    "our", "out", "own", "same", "should", "their", "theirs", "them", "themselves",
    "then", "there", "they", "up", "very", "what", "which", "while", "who", "whom",
    "your", "yours", "yourself", "yourselves", "about", "via", "via", "via", "want",
    "like", "need", "get", "work", "working", "used", "try", "trying", "test",
    "testing", "currently", "able", "plan", "planning", "etc", "just", "really",
    "please", "thanks", "thank", "hi", "hello", "hey", "one", "two", "three",
    "morphocloud", "university", "instance", "create", "created", "creating",
    "participant", "workshop", "github", "issue", "well", "attending", "orcid",
    "usa", "america", "american", "states", "united", "california", "texas", "florida",
    "new", "york", "washington", "oregon", "colorado", "arizona", "utah", "nevada",
    "illinois", "ohio", "michigan", "pennsylvania", "massachusetts", "virginia",
    "georgia", "north", "carolina", "south", "tennessee", "kentucky", "alabama",
    "louisiana", "mississippi", "arkansas", "oklahoma", "kansas", "nebraska",
    "iowa", "missouri", "wisconsin", "minnesota", "indiana", "maryland", "delaware",
    "connecticut", "rhode", "island", "vermont", "hampshire", "maine", "west",
    "seattle", "portland", "denver", "phoenix", "chicago", "boston", "atlanta",
    "houston", "dallas", "austin", "miami", "philadelphia", "detroit", "baltimore",
    "japan", "japanese", "tokyo", "kyoto", "osaka", "china", "chinese", "beijing",
    "shanghai", "canada", "canadian", "toronto", "vancouver", "montreal", "ottawa",
    "england", "london", "britain", "british", "uk", "scotland", "wales", "ireland",
    "france", "french", "paris", "germany", "german", "berlin", "spain", "spanish",
    "madrid", "italy", "italian", "rome", "netherlands", "dutch", "amsterdam",
    "belgium", "brussels", "switzerland", "swiss", "sweden", "stockholm", "norway",
    "denmark", "finland", "austria", "poland", "portugal", "greece", "russia",
    "australia", "australian", "sydney", "melbourne", "zealand", "auckland",
    "india", "indian", "delhi", "mumbai", "brazil", "brazilian", "mexico", "mexican",
    "argentina", "chile", "peru", "colombia", "africa", "african", "kenya", "egypt",
    "europe", "european", "asia", "asian", "kyushu", "louisville" ] : List String).map strL

/-- The `CANONICAL_FORMS` dictionary of the script. -/
def CANONICAL_FORMS : List (List Nat × List Nat) :=
  [ (strL "segment", strL "segmentation"),
    (strL "segments", strL "segmentation"),
    (strL "segmenting", strL "segmentation"),
    (strL "segmentation", strL "segmentation"),
    (strL "morphometric", strL "morphometrics"),
    (strL "morphometrics", strL "morphometrics") ]

/-- Python `word in CANONICAL_FORMS` / `CANONICAL_FORMS[word]` as one lookup. -/
def lookupCanon (w : List Nat) : Option (List Nat) :=
  (CANONICAL_FORMS.find? (fun p => decide (p.1 = w))).map (fun p => p.2)

/-- The canonical rewriting of normalization step 8: map value if the word is
a key of `CANONICAL_FORMS`, the word itself otherwise. -/
def canonicalize (w : List Nat) : List Nat :=
  match lookupCanon w with
  | some c => c
  | none => w

/-- The `COMMON_NAMES` set of the script, entries in source order. -/
def COMMON_NAMES : List (List Nat) :=
  ([ "john", "mary", "michael", "sarah", "david", "james", "robert", "jennifer",
    "william", "linda", "richard", "patricia", "charles", "barbara", "joseph",
    "elizabeth", "thomas", "susan", "christopher", "jessica", "daniel", "karen",
    "matthew", "nancy", "anthony", "lisa", "mark", "betty", "donald", "margaret",
    "steven", "sandra", "paul", "ashley", "andrew", "kimberly", "joshua", "emily",
    "kenneth", "donna", "kevin", "michelle", "brian", "carol", "george", "amanda",
    "edward", "melissa", "ronald", "deborah", "timothy", "stephanie", "jason",
    "rebecca", "jeffrey", "sharon", "ryan", "laura", "jacob", "cynthia", "gary",
    "kathleen", "nicholas", "amy", "eric", "shirley", "jonathan", "angela",
    "stephen", "helen", "larry", "anna", "justin", "brenda", "scott", "pamela",
    "brandon", "nicole", "benjamin", "emma", "samuel", "samantha", "raymond",
    "katherine", "patrick", "christine", "alexander", "debra", "jack", "rachel",
    "dennis", "catherine", "jerry", "carolyn", "tyler", "janet", "aaron", "ruth",
    "jose", "maria", "adam", "heather", "henry", "diane", "nathan", "virginia",
    "douglas", "julie", "zachary", "joyce", "peter", "victoria", "kyle", "olivia",
    "walter", "kelly", "ethan", "christina", "jeremy", "lauren", "harold", "joan",
    "keith", "evelyn", "christian", "judith", "roger", "megan", "noah", "cheryl",
    "gerald", "andrea", "carl", "hannah", "terry", "jacqueline", "sean", "martha",
    "austin", "gloria", "arthur", "teresa", "lawrence", "ann", "jesse", "sara",
    "dylan", "madison", "bryan", "frances", "joe", "kathryn", "jordan", "janice",
    "billy", "jean", "bruce", "abigail", "albert", "sophia", "willie", "isabella",
    "gabriel", "charlotte", "logan", "amelia", "alan", "mia", "juan", "harper",
    "wayne", "evelyn", "roy", "ella", "ralph", "scarlett", "randy", "grace",
    "eugene", "chloe", "vincent", "lily", "russell", "ellie", "elijah", "lucy",
    "louis", "addison", "bobby", "natalie", "philip", "lillian", "johnny", "leah",
    "karly", "cohen", "murat", "maga", "luke", "rose", "yuto", "sano", "anthony",
    "lee", "annika", "dawley", "participant" ] : List String).map strL

/-- `is_likely_name`: decide whether one original-case token is likely a
personal name.  Mirrors the Python function line by line. -/
def is_likely_name (word : List Nat) : Bool :=
  if word.isEmpty then false
  else if COMMON_NAMES.contains (pyLower word) then true
  else if isUpperN (word.headD 0) && decide (2 < word.length) then
    if pyStrIsUpper word then false else true
  else false

/-- The suffix list of `simple_stem`, in source order. -/
def STEM_SUFFIXES : List (List Nat) :=
  ([ "ing", "ed", "es", "s", "tion", "ation", "ly", "ment", "ness", "er",
    "or", "ist", "ity", "al" ] : List String).map strL

/-- Literal prefix test on code-point lists. -/
def startsWithL : List Nat → List Nat → Bool
  | [], _ => true
  | _ :: _, [] => false
  | p :: ps, c :: cs => decide (p = c) && startsWithL ps cs

/-- Python `str.endswith` as list-suffix test. -/
def endsWithL (s : List Nat) (l : List Nat) : Bool :=
  startsWithL s.reverse l.reverse

/-- The suffix loop of `simple_stem`: first matching suffix wins. -/
def stemLoop : List (List Nat) → List Nat → List Nat
  | [], w => w
  | s :: rest, w =>
    if endsWithL s w && decide (s.length + 2 < w.length) then
      w.take (w.length - s.length)
    else stemLoop rest w

/-- `simple_stem`: lowercase, then drop the first suffix in the list that
matches and leaves more than two characters.  Defined in the script but never
called by the keyword pipeline. -/
def simple_stem (word : List Nat) : List Nat :=
  stemLoop STEM_SUFFIXES (pyLower word)


/-- Case-insensitive literal match (the `re.IGNORECASE` flag applied to the
fixed heading label): on success, return the text after the matched part. -/
def matchCI : List Nat → List Nat → Option (List Nat)
  | [], l => some l
  | _ :: _, [] => none
  | p :: ps, c :: cs =>
    if pyLowerChar p = pyLowerChar c then matchCI ps cs else none

/-- The heading label of the extractor pattern, `### Description`. -/
def headerPat : List Nat := strL "### Description"

/-- Literal match of two newlines, the `\n\n` part of the pattern. -/
def matchNN : List Nat → Option (List Nat)
  | 10 :: 10 :: rest => some rest
  | _ => none

/-- Greedy `\s*` followed by literal `\n\n`, with backtracking: prefer
consuming one more whitespace character; on failure match `\n\n` here. -/
def matchWsNN : List Nat → Option (List Nat)
  | [] => none
  | c :: rest =>
    if isPySpace c then
      match matchWsNN rest with
      | some r => some r
      | none => matchNN (c :: rest)
    else matchNN (c :: rest)

/-- The lookahead delimiter `\n### ` that ends the captured section. -/
def sectMark : List Nat := strL "\n### "

/-- Lazy capture `(.*?)(?=\n### |\Z)` under `re.DOTALL`: the shortest text up
to the next section marker, or everything when no marker follows. -/
def captureUntil : List Nat → List Nat
  | [] => []
  | c :: rest =>
    if startsWithL sectMark (c :: rest) then [] else c :: captureUntil rest

/-- `re.search` of the extractor pattern: try every start position left to
right; at the first position where the heading label and the
whitespace-blank-line part match, return the lazy capture. -/
def searchDesc : List Nat → Option (List Nat)
  | [] => none
  | c :: rest =>
    match matchCI headerPat (c :: rest) with
    | some after =>
      match matchWsNN after with
      | some afterNN => some (captureUntil afterNN)
      | none => searchDesc rest
    | none => searchDesc rest

/-- `extract_description`: empty for an absent or empty body; otherwise the
stripped capture of the first pattern match, or empty when there is none. -/
def extract_description (body : Option (List Nat)) : List Nat :=
  match body with
  | none => []
  | some b =>
    if b.isEmpty then []
    else
      match searchDesc b with
      | some cap => pyStripWs cap
      | none => []

/-- The punctuation characters stripped from the original-case token,
Python `strip('-.,!?;:')`. -/
def origPunct : List Nat := strL "-.,!?;:"

/-- The original-case counterpart of the token at index `i`:
`original_words[i].strip('-.,!?;:') if i < len(original_words) else word`. -/
def origWordAt (ows : List (List Nat)) (i : Nat) (word : List Nat) : List Nat :=
  match ows.get? i with
  | some ow => pyStrip origPunct ow
  | none => word

/-- The filter-and-emit loop of `extract_keywords`: `ows` is the split of the
original-case text, `i` the running index into the lowercased token list. -/
def extractLoop (ows : List (List Nat)) : Nat → List (List Nat) → List (List Nat)
  | _, [] => []
  | i, w :: rest =>
    let word := pyStrip [45] w
    let ow := origWordAt ows i word
    if decide (3 ≤ word.length) && !STOP_WORDS.contains word &&
        !pyIsDigit word && !is_likely_name ow then
      (match lookupCanon word with
       | some c => c
       | none => word) :: extractLoop ows (i + 1) rest
    else extractLoop ows (i + 1) rest

/-- `extract_keywords`: the whole per-document normalization pipeline. -/
def extract_keywords (text : List Nat) : List (List Nat) :=
  if text.isEmpty then []
  else
    extractLoop (splitWs text) 0
      (splitWs (punctToSpace (removeNumbers (pyLower text))))

/-- Same loop as `extractLoop` but emitting the surviving post-strip token
without the canonical rewriting, to state what step 8 adds. -/
def keptLoop (ows : List (List Nat)) : Nat → List (List Nat) → List (List Nat)
  | _, [] => []
  | i, w :: rest =>
    let word := pyStrip [45] w
    let ow := origWordAt ows i word
    if decide (3 ≤ word.length) && !STOP_WORDS.contains word &&
        !pyIsDigit word && !is_likely_name ow then
      word :: keptLoop ows (i + 1) rest
    else keptLoop ows (i + 1) rest

/-- The tokens of a text that survive filter step 7, before canonicalization. -/
def keptWords (text : List Nat) : List (List Nat) :=
  if text.isEmpty then []
  else
    keptLoop (splitWs text) 0
      (splitWs (punctToSpace (removeNumbers (pyLower text))))

/-- The keywords one document contributes in the main loop: its body runs
through `extract_description`, and only a nonempty description is tokenized. -/
def docKeywords (body : Option (List Nat)) : List (List Nat) :=
  let d := extract_description body
  if d.isEmpty then [] else extract_keywords d

/-- One `Counter` increment: bump the entry of key `k`, inserting count 1
when the key is absent. -/
def updateCount : List (List Nat × Nat) → List Nat → List (List Nat × Nat)
  | [], k => [(k, 1)]
  | (k', c) :: rest, k =>
    if k' = k then (k', c + 1) :: rest else (k', c) :: updateCount rest k

/-- `Counter.update(keywords)`: one increment per keyword occurrence. -/
def updateCounts (t : List (List Nat × Nat)) (ks : List (List Nat)) :
    List (List Nat × Nat) :=
  ks.foldl updateCount t

/-- The frequency table built by the main loop over a document collection. -/
def wordmapTable (docs : List (Option (List Nat))) : List (List Nat × Nat) :=
  docs.foldl (fun t d => updateCounts t (docKeywords d)) []

/-- The count a frequency table associates with a keyword (0 when absent). -/
def lookupCount : List (List Nat × Nat) → List Nat → Nat
  | [], _ => 0
  | (k', c) :: rest, k => if k' = k then c else lookupCount rest k

/-- Number of occurrences of keyword `w` in a keyword sequence. -/
def countKw (w : List Nat) : List (List Nat) → Nat
  | [] => 0
  | k :: rest => (if k = w then 1 else 0) + countKw w rest

/-! ### Helper lemmas -/

/-- Unfolding equation for the filter-and-emit loop on a cons cell. -/
theorem extractLoop_cons (ows : List (List Nat)) (i : Nat) (w : List Nat)
    (rest : List (List Nat)) :
    extractLoop ows i (w :: rest) =
      if decide (3 ≤ (pyStrip [45] w).length) &&
          !STOP_WORDS.contains (pyStrip [45] w) && !pyIsDigit (pyStrip [45] w) &&
          !is_likely_name (origWordAt ows i (pyStrip [45] w)) then
        (match lookupCanon (pyStrip [45] w) with
         | some c => c
         | none => pyStrip [45] w) :: extractLoop ows (i + 1) rest
      else extractLoop ows (i + 1) rest := rfl

/-- Unfolding equation for the canonicalization-free loop on a cons cell. -/
theorem keptLoop_cons (ows : List (List Nat)) (i : Nat) (w : List Nat)
    (rest : List (List Nat)) :
    keptLoop ows i (w :: rest) =
      if decide (3 ≤ (pyStrip [45] w).length) &&
          !STOP_WORDS.contains (pyStrip [45] w) && !pyIsDigit (pyStrip [45] w) &&
          !is_likely_name (origWordAt ows i (pyStrip [45] w)) then
        pyStrip [45] w :: keptLoop ows (i + 1) rest
      else keptLoop ows (i + 1) rest := rfl

/-- Every value of the canonical-form map satisfies the two keyword bounds. -/
theorem canonVal_bounds : ∀ p ∈ CANONICAL_FORMS,
    3 ≤ p.2.length ∧ pyIsDigit p.2 = false := by decide

/-- Every value of the canonical-form map is itself a fixed point. -/
theorem canonVal_fixed : ∀ p ∈ CANONICAL_FORMS, canonicalize p.2 = p.2 := by decide

/-- A successful canonical lookup yields a value with the keyword bounds. -/
theorem lookupCanon_bounds {w c : List Nat} (h : lookupCanon w = some c) :
    3 ≤ c.length ∧ pyIsDigit c = false := by
  unfold lookupCanon at h
  rcases Option.map_eq_some'.1 h with ⟨p, hf, hp⟩
  have := canonVal_bounds p (List.mem_of_find?_eq_some hf)
  rw [← hp]
  exact this

/-! ### C4: canonical rewriting is idempotent -/

/-- C4: applying the canonical-form lookup twice yields the same result as
applying it once; every canonical value is a key that maps to itself. -/
theorem canonical_c4_idem (w : List Nat) :
    canonicalize (canonicalize w) = canonicalize w := by
  rcases h : lookupCanon w with _ | c
  · have hw : canonicalize w = w := by unfold canonicalize; rw [h]
    rw [hw]
    exact hw
  · have hw : canonicalize w = c := by unfold canonicalize; rw [h]
    unfold lookupCanon at h
    rcases Option.map_eq_some'.1 h with ⟨p, hf, hp⟩
    rw [hw, ← hp]
    exact canonVal_fixed p (List.mem_of_find?_eq_some hf)

/-! ### C3: the Name Heuristic policy -/

/-- C3: the Name Heuristic returns false on the empty token, true on a member
of the common-first-names set, and otherwise — for a capitalized token longer
than two characters — false for all-uppercase tokens and true for mixed case,
with false in every remaining case; in particular true on `John` and false
on `CT`. -/
theorem name_heuristic_c3 :
    (∀ w : List Nat,
      is_likely_name w =
        (!w.isEmpty &&
          (COMMON_NAMES.contains (pyLower w) ||
            (!COMMON_NAMES.contains (pyLower w) &&
              (isUpperN (w.headD 0) && decide (2 < w.length)) &&
              !pyStrIsUpper w)))) ∧
    is_likely_name (strL "John") = true ∧ is_likely_name (strL "CT") = false := by
  refine ⟨?_, by decide, by decide⟩
  intro w
  unfold is_likely_name
  cases w with
  | nil => simp
  | cons a rest =>
    by_cases hn : pyLower (a :: rest) ∈ COMMON_NAMES
    · simp [hn]
    · by_cases hup : isUpperN a = true <;>
        by_cases hl : 2 < (a :: rest).length <;>
        by_cases hu : pyStrIsUpper (a :: rest) = true <;>
        simp [hn, hup, hl, hu]

/-! ### C8: the worked scenario -/

/-- C8: on the scenario body the extractor returns the sentence after the
heading, and the normalizer emits `segmentation` (canonicalized) and `cells`
while excluding the stop words `need` and `using`. -/
theorem scenario_c8 :
    extract_description
        (some (strL "### Description\n\nWe need segmentation of cells using deep learning.")) =
      strL "We need segmentation of cells using deep learning." ∧
    extract_keywords (strL "We need segmentation of cells using deep learning.") =
      [strL "segmentation", strL "cells", strL "deep", strL "learning"] ∧
    strL "segmentation" ∈
      extract_keywords (strL "We need segmentation of cells using deep learning.") ∧
    strL "cells" ∈
      extract_keywords (strL "We need segmentation of cells using deep learning.") ∧
    strL "need" ∉
      extract_keywords (strL "We need segmentation of cells using deep learning.") ∧
    strL "using" ∉
      extract_keywords (strL "We need segmentation of cells using deep learning.") := by
  decide

/-! ### C2: emitted keywords have length at least 3 and are not numeric -/

/-- Every keyword the filter-and-emit loop produces has length at least 3 and
is not a digit-only string. -/
theorem extractLoop_bounds :
    ∀ ws ows i k, k ∈ extractLoop ows i ws →
      3 ≤ k.length ∧ pyIsDigit k = false := by
  intro ws
  induction ws with
  | nil => intro ows i k h; simp [extractLoop] at h
  | cons w rest ih =>
    intro ows i k h
    rw [extractLoop_cons] at h
    split at h
    case isTrue hc =>
      rcases List.mem_cons.1 h with hk | hk
      · rcases hcanon : lookupCanon (pyStrip [45] w) with _ | c
        · rw [hcanon] at hk
          subst hk
          have h3 : decide (3 ≤ (pyStrip [45] w).length) = true := by
            simp only [Bool.and_eq_true] at hc
            exact hc.1.1.1
          have hd : pyIsDigit (pyStrip [45] w) = false := by
            simp only [Bool.and_eq_true, Bool.not_eq_true'] at hc
            exact hc.1.2
          exact ⟨by simpa using h3, hd⟩
        · rw [hcanon] at hk
          subst hk
          exact lookupCanon_bounds hcanon
      · exact ih ows (i + 1) k hk
    case isFalse => exact ih ows (i + 1) k h

/-- C2: every keyword emitted by the normalizer has length at least 3 and is
not a purely numeric string. -/
theorem keyword_c2_bounds (text k : List Nat) (h : k ∈ extract_keywords text) :
    3 ≤ k.length ∧ pyIsDigit k = false := by
  unfold extract_keywords at h
  split at h
  · simp at h
  · exact extractLoop_bounds _ _ _ k h

/-- Witness for C2 at the concrete input `deep`. -/
theorem keyword_c2_bounds_w :
    3 ≤ (strL "deep").length ∧ pyIsDigit (strL "deep") = false :=
  keyword_c2_bounds (strL "deep") (strL "deep") (by decide)

/-! ### C6: step 8 is a pure canonical-map lookup, without stemming -/

/-- The filter-and-emit loop is the canonicalization-free loop followed by
the canonical-form lookup on each survivor. -/
theorem extractLoop_eq_map :
    ∀ ws ows i, extractLoop ows i ws = (keptLoop ows i ws).map canonicalize := by
  intro ws
  induction ws with
  | nil => intro ows i; rfl
  | cons w rest ih =>
    intro ows i
    rw [extractLoop_cons, keptLoop_cons]
    split
    · rw [List.map_cons, ih]
      rfl
    · exact ih ows (i + 1)

/-- C6: each emitted keyword is exactly the canonical-form map's value when
the post-strip token is a key, and the token itself otherwise; the suffix
stemmer is not part of the pipeline (on `learning` the pipeline keeps the
full token while the stemmer would shorten it). -/
theorem emission_c6_canonical :
    (∀ text, extract_keywords text = (keptWords text).map canonicalize) ∧
    extract_keywords (strL "learning") = [strL "learning"] ∧
    simple_stem (strL "learning") = strL "learn" := by
  refine ⟨?_, by decide, by decide⟩
  intro text
  unfold extract_keywords keptWords
  split
  · rfl
  · exact extractLoop_eq_map _ _ _

/-! ### C1: the out-of-range fallback in the name filter -/

/-- Counterexample to C1 as stated: in `x.y john` the lowercased split has
three tokens while the original-case split has two, so index 2 is out of
range; its token `john` passes the length, stop-word and digit filters, yet
the whole output is empty — the fallback name check did exclude it. -/
theorem keyword_c1_cex :
    splitWs (strL "x.y john") = [strL "x.y", strL "john"] ∧
    splitWs (punctToSpace (removeNumbers (pyLower (strL "x.y john")))) =
      [strL "x", strL "y", strL "john"] ∧
    origWordAt (splitWs (strL "x.y john")) 2 (strL "john") = strL "john" ∧
    is_likely_name (strL "john") = true ∧
    (decide (3 ≤ (strL "john").length) && !STOP_WORDS.contains (strL "john") &&
      !pyIsDigit (strL "john")) = true ∧
    extract_keywords (strL "x.y john") = [] := by
  decide

/-! ### C5: aggregation is commutative over document order -/

/-- One counter increment changes exactly the count of its key, by one. -/
theorem lookupCount_updateCount (t : List (List Nat × Nat)) (k w : List Nat) :
    lookupCount (updateCount t k) w =
      lookupCount t w + (if k = w then 1 else 0) := by
  induction t with
  | nil =>
    by_cases h : k = w <;> simp [updateCount, lookupCount, h]
  | cons p rest ih =>
    obtain ⟨k', c⟩ := p
    by_cases h1 : k' = k
    · subst h1
      by_cases h2 : k' = w <;> simp [updateCount, lookupCount, h2]
    · by_cases h2 : k' = w
      · subst h2
        have : ¬k = k' := fun hk => h1 hk.symm
        simp [updateCount, lookupCount, h1, this]
      · simp [updateCount, lookupCount, h1, h2, ih]

/-- Updating a counter with a keyword sequence adds each keyword's occurrence
count to its entry. -/
theorem lookupCount_updateCounts (ks : List (List Nat)) :
    ∀ t w, lookupCount (updateCounts t ks) w = lookupCount t w + countKw w ks := by
  induction ks with
  | nil => intro t w; simp [updateCounts, countKw]
  | cons k ks ih =>
    intro t w
    have hstep : updateCounts t (k :: ks) = updateCounts (updateCount t k) ks := rfl
    rw [hstep, ih, lookupCount_updateCount]
    show _ = lookupCount t w + ((if k = w then 1 else 0) + countKw w ks)
    omega

/-- C5: processing the two-document collections `[A, B]` and `[B, A]` yields
the same frequency table as a mapping from keyword to count. -/
theorem aggregate_c5_comm (A B : Option (List Nat)) (w : List Nat) :
    lookupCount (wordmapTable [A, B]) w = lookupCount (wordmapTable [B, A]) w := by
  have hAB : wordmapTable [A, B] =
      updateCounts (updateCounts [] (docKeywords A)) (docKeywords B) := rfl
  have hBA : wordmapTable [B, A] =
      updateCounts (updateCounts [] (docKeywords B)) (docKeywords A) := rfl
  rw [hAB, hBA, lookupCount_updateCounts, lookupCount_updateCounts,
    lookupCount_updateCounts, lookupCount_updateCounts]
  show 0 + _ + _ = 0 + _ + _
  omega

/-! ### C10: all stored counts are strictly positive -/

/-- A counter increment preserves strict positivity of all stored counts. -/
theorem updateCount_pos (t : List (List Nat × Nat)) (k : List Nat)
    (h : ∀ p ∈ t, 1 ≤ p.2) : ∀ p ∈ updateCount t k, 1 ≤ p.2 := by
  induction t with
  | nil =>
    intro p hp
    simp [updateCount] at hp
    subst hp
    simp
  | cons q rest ih =>
    obtain ⟨k', c⟩ := q
    intro p hp
    by_cases h1 : k' = k
    · simp [updateCount, h1] at hp
      rcases hp with hp | hp
      · subst hp; simp
      · exact h p (List.mem_cons_of_mem _ hp)
    · simp only [updateCount, if_neg h1] at hp
      rcases List.mem_cons.1 hp with hp | hp
      · subst hp; exact h (k', c) (List.mem_cons_self _ _)
      · exact ih (fun q hq => h q (List.mem_cons_of_mem _ hq)) p hp

/-- Updating with a whole keyword sequence preserves strict positivity. -/
theorem updateCounts_pos (ks : List (List Nat)) :
    ∀ t, (∀ p ∈ t, 1 ≤ p.2) → ∀ p ∈ updateCounts t ks, 1 ≤ p.2 := by
  induction ks with
  | nil => intro t h; exact h
  | cons k ks ih =>
    intro t h
    exact ih (updateCount t k) (updateCount_pos t k h)

/-- The main-loop fold preserves strict positivity from any starting table. -/
theorem wordmapFold_pos (docs : List (Option (List Nat))) :
    ∀ t, (∀ p ∈ t, 1 ≤ p.2) →
      ∀ p ∈ docs.foldl (fun t d => updateCounts t (docKeywords d)) t, 1 ≤ p.2 := by
  induction docs with
  | nil => intro t h; exact h
  | cons d docs ih =>
    intro t h
    exact ih (updateCounts t (docKeywords d)) (updateCounts_pos _ t h)

/-- C10: after processing any document collection, every count stored in the
frequency table is at least 1 — keys exist only for keywords emitted at least
once. -/
theorem table_c10_positive (docs : List (Option (List Nat)))
    (p : List Nat × Nat) (h : p ∈ wordmapTable docs) : 1 ≤ p.2 :=
  wordmapFold_pos docs [] (by simp) p h

/-- Witness for C10 on a one-document collection. -/
theorem table_c10_positive_w :
    1 ≤ ((strL "cells", 1) : List Nat × Nat).2 :=
  table_c10_positive [some (strL "### Description\n\ncells")]
    (strL "cells", 1) (by decide)

/-! ### C9: absent body or missing heading contributes nothing -/

/-- C9: when the body is absent, empty, or the pattern search finds no
Description heading, the extractor returns the empty text, the document
contributes zero keywords, and updating the frequency table with its
contribution changes nothing. -/
theorem extractor_c9_empty (body : Option (List Nat))
    (h : body = none ∨ body = some [] ∨
      ∃ b, body = some b ∧ searchDesc b = none) :
    extract_description body = [] ∧ docKeywords body = [] ∧
      ∀ t, updateCounts t (docKeywords body) = t := by
  have hd : extract_description body = [] := by
    rcases h with h | h | ⟨b, hb, hs⟩
    · rw [h]; rfl
    · rw [h]; rfl
    · rw [hb]
      show (if b.isEmpty then [] else
        match searchDesc b with
        | some cap => pyStripWs cap
        | none => []) = []
      rw [hs]
      split <;> rfl
  have hk : docKeywords body = [] := by
    unfold docKeywords
    rw [hd]
    rfl
  exact ⟨hd, hk, fun t => by rw [hk]; rfl⟩

/-- Witness for C9 at the absent body. -/
theorem extractor_c9_empty_w :
    extract_description none = [] ∧ docKeywords none = [] :=
  ⟨(extractor_c9_empty none (Or.inl rfl)).1,
   (extractor_c9_empty none (Or.inl rfl)).2.1⟩

/-! ### C7: numeric matches are deleted, not replaced by a space -/

/-- A lowercase ASCII letter is not a digit. -/
theorem isLowerN_not_digit {c : Nat} (h : isLowerN c = true) :
    isDigitN c = false := by
  unfold isLowerN at h
  unfold isDigitN
  simp at h ⊢
  omega

/-- Unfolding equation for the scanner in mode 0. -/
theorem rnAux_zero_cons (c : Nat) (rest : List Nat) :
    rnAux 0 (c :: rest) =
      if isDigitN c then rnAux 1 rest else c :: rnAux 0 rest := rfl

/-- Unfolding equation for the scanner in mode 1. -/
theorem rnAux_one_cons (c : Nat) (rest : List Nat) :
    rnAux 1 (c :: rest) =
      if isDigitN c then rnAux 1 rest
      else if isLowerN c then rnAux 2 rest
      else c :: rnAux 0 rest := rfl

/-- Unfolding equation for the scanner in mode 2. -/
theorem rnAux_two_cons (c : Nat) (rest : List Nat) :
    rnAux 2 (c :: rest) =
      if isLowerN c then rnAux 2 rest
      else if isDigitN c then rnAux 1 rest
      else c :: rnAux 0 rest := rfl

/-- In scanning mode, non-digit characters are copied through unchanged. -/
theorem rnAux0_keep (s₁ : List Nat) (h : ∀ c ∈ s₁, isDigitN c = false) :
    ∀ rest, rnAux 0 (s₁ ++ rest) = s₁ ++ rnAux 0 rest := by
  induction s₁ with
  | nil => intro rest; rfl
  | cons c s₁ ih =>
    intro rest
    have hc := h c (List.mem_cons_self _ _)
    rw [List.cons_append, rnAux_zero_cons, hc]
    simp only [Bool.false_eq_true, if_false, List.cons_append]
    exact congrArg (c :: ·) (ih (fun d hd => h d (List.mem_cons_of_mem _ hd)) rest)

/-- Inside the digit part, further digits are consumed. -/
theorem rnAux1_digits (ds : List Nat) (h : ∀ c ∈ ds, isDigitN c = true) :
    ∀ rest, rnAux 1 (ds ++ rest) = rnAux 1 rest := by
  induction ds with
  | nil => intro rest; rfl
  | cons c ds ih =>
    intro rest
    have hc := h c (List.mem_cons_self _ _)
    show (if isDigitN c then _ else _) = _
    rw [hc]
    simp only [if_true]
    exact ih (fun d hd => h d (List.mem_cons_of_mem _ hd)) rest

/-- Inside the trailing-letters part, further lowercase letters are consumed. -/
theorem rnAux2_letters (ls : List Nat) (h : ∀ c ∈ ls, isLowerN c = true) :
    ∀ rest, rnAux 2 (ls ++ rest) = rnAux 2 rest := by
  induction ls with
  | nil => intro rest; rfl
  | cons c ls ih =>
    intro rest
    have hc := h c (List.mem_cons_self _ _)
    show (if isLowerN c then _ else _) = _
    rw [hc]
    simp only [if_true]
    exact ih (fun d hd => h d (List.mem_cons_of_mem _ hd)) rest

/-- After a maximal match, scanning resumes exactly as from mode 0. -/
theorem rnAux_resume (s₂ : List Nat)
    (h : ∀ c, s₂.head? = some c → isDigitN c = false ∧ isLowerN c = false) :
    rnAux 1 s₂ = rnAux 0 s₂ ∧ rnAux 2 s₂ = rnAux 0 s₂ := by
  cases s₂ with
  | nil => exact ⟨rfl, rfl⟩
  | cons c rest =>
    obtain ⟨hd, hl⟩ := h c rfl
    constructor
    · rw [rnAux_one_cons, rnAux_zero_cons, hd, hl]
      simp only [Bool.false_eq_true, if_false]
    · rw [rnAux_two_cons, rnAux_zero_cons, hd, hl]
      simp only [Bool.false_eq_true, if_false]

/-- C7: every maximal substring of digits followed by optional lowercase
letters is replaced by the empty string, and on `foo1-bar` this merges the
characters around the removed digit into the single token `foo-bar`, a token
the whitespace split of the source text does not contain. -/
theorem strip_c7_merge :
    (∀ s₁ ds ls s₂, (∀ c ∈ s₁, isDigitN c = false) → ds ≠ [] →
      (∀ c ∈ ds, isDigitN c = true) → (∀ c ∈ ls, isLowerN c = true) →
      (∀ c, s₂.head? = some c → isDigitN c = false ∧ isLowerN c = false) →
      removeNumbers (s₁ ++ ds ++ ls ++ s₂) = s₁ ++ removeNumbers s₂) ∧
    removeNumbers (strL "foo1-bar") = strL "foo-bar" ∧
    extract_keywords (strL "foo1-bar") = [strL "foo-bar"] ∧
    splitWs (strL "foo1-bar") = [strL "foo1-bar"] ∧
    strL "foo-bar" ∉ splitWs (strL "foo1-bar") := by
  refine ⟨?_, by decide, by decide, by decide, by decide⟩
  intro s₁ ds ls s₂ h₁ hne hds hls hs₂
  unfold removeNumbers
  rw [List.append_assoc, List.append_assoc, rnAux0_keep s₁ h₁]
  congr 1
  cases ds with
  | nil => exact absurd rfl hne
  | cons d ds =>
    have hd := hds d (List.mem_cons_self _ _)
    rw [List.cons_append, rnAux_zero_cons, hd]
    simp only [if_true]
    rw [rnAux1_digits ds (fun c hc => hds c (List.mem_cons_of_mem _ hc))]
    cases ls with
    | nil => exact (rnAux_resume s₂ hs₂).1
    | cons l ls =>
      have hl := hls l (List.mem_cons_self _ _)
      rw [List.cons_append, rnAux_one_cons, isLowerN_not_digit hl, hl]
      simp only [Bool.false_eq_true, if_false, if_true]
      rw [rnAux2_letters ls (fun c hc => hls c (List.mem_cons_of_mem _ hc))]
      exact (rnAux_resume s₂ hs₂).2

/-- Witness for the replacement property of C7 at the decomposition of
`foo1-bar`. -/
theorem strip_c7_merge_w :
    removeNumbers (strL "foo" ++ strL "1" ++ [] ++ strL "-bar") =
      strL "foo" ++ removeNumbers (strL "-bar") :=
  strip_c7_merge.1 (strL "foo") (strL "1") [] (strL "-bar")
    (by decide) (by decide) (by decide) (by decide) (by decide)

/-! ### C1 (amended): what the out-of-range fallback actually does -/

/-- Lowercasing never produces an uppercase ASCII code point. -/
theorem isUpperN_pyLowerChar (c : Nat) : isUpperN (pyLowerChar c) = false := by
  unfold pyLowerChar
  by_cases h : isUpperN c = true
  · rw [if_pos h]
    unfold isUpperN at h ⊢
    simp at h ⊢
    omega
  · rw [if_neg h]
    simpa using h

/-- A text containing no uppercase ASCII letter is fixed by lowercasing. -/
theorem pyLower_self {w : List Nat} (h : ∀ c ∈ w, isUpperN c = false) :
    pyLower w = w := by
  unfold pyLower
  induction w with
  | nil => rfl
  | cons c rest ih =>
    rw [List.map_cons]
    have hc : pyLowerChar c = c := by
      unfold pyLowerChar
      rw [h c (List.mem_cons_self _ _)]
      simp
    rw [hc, ih (fun d hd => h d (List.mem_cons_of_mem _ hd))]

/-- Characters surviving the numeric-strip scanner come from its input. -/
theorem mem_rnAux {c : Nat} : ∀ l m, c ∈ rnAux m l → c ∈ l := by
  intro l
  induction l with
  | nil =>
    intro m h
    rcases m with _ | _ | m <;> simp [rnAux] at h
  | cons d rest ih =>
    intro m h
    rcases m with _ | _ | m
    · rw [rnAux_zero_cons] at h
      split at h
      · exact List.mem_cons_of_mem _ (ih 1 h)
      · rcases List.mem_cons.1 h with hc | hc
        · exact hc ▸ List.mem_cons_self _ _
        · exact List.mem_cons_of_mem _ (ih 0 hc)
    · rw [rnAux_one_cons] at h
      split at h
      · exact List.mem_cons_of_mem _ (ih 1 h)
      · split at h
        · exact List.mem_cons_of_mem _ (ih 2 h)
        · rcases List.mem_cons.1 h with hc | hc
          · exact hc ▸ List.mem_cons_self _ _
          · exact List.mem_cons_of_mem _ (ih 0 hc)
    · rw [show rnAux (m + 2) (d :: rest) =
          (if isLowerN d then rnAux 2 rest
           else if isDigitN d then rnAux 1 rest
           else d :: rnAux 0 rest) from rfl] at h
      split at h
      · exact List.mem_cons_of_mem _ (ih 2 h)
      · split at h
        · exact List.mem_cons_of_mem _ (ih 1 h)
        · rcases List.mem_cons.1 h with hc | hc
          · exact hc ▸ List.mem_cons_self _ _
          · exact List.mem_cons_of_mem _ (ih 0 hc)

/-- Punctuation replacement preserves the absence of uppercase letters. -/
theorem mem_punctToSpace_noUpper {l : List Nat}
    (h : ∀ d ∈ l, isUpperN d = false) :
    ∀ c ∈ punctToSpace l, isUpperN c = false := by
  intro c hc
  unfold punctToSpace at hc
  rcases List.mem_map.1 hc with ⟨d, hd, he⟩
  by_cases hk : (isWordChar d || isPySpace d || d = 45) = true
  · rw [if_pos hk] at he
    exact he ▸ h d hd
  · rw [if_neg hk] at he
    rw [← he]
    decide

/-- Characters of tokens produced by the whitespace split come from the split
input or from the accumulator. -/
theorem mem_splitWsGo :
    ∀ l acc tok, tok ∈ splitWsGo l acc → ∀ c ∈ tok, c ∈ l ∨ c ∈ acc := by
  intro l
  induction l with
  | nil =>
    intro acc tok h c hc
    unfold splitWsGo at h
    split at h
    · simp at h
    · rcases List.mem_singleton.1 h with rfl
      exact Or.inr (List.mem_reverse.1 hc)
  | cons d rest ih =>
    intro acc tok h c hc
    unfold splitWsGo at h
    split at h
    · split at h
      · rcases ih [] tok h c hc with h' | h'
        · exact Or.inl (List.mem_cons_of_mem _ h')
        · simp at h'
      · rcases List.mem_cons.1 h with h' | h'
        · subst h'
          exact Or.inr (List.mem_reverse.1 hc)
        · rcases ih [] tok h' c hc with h'' | h''
          · exact Or.inl (List.mem_cons_of_mem _ h'')
          · simp at h''
    · rcases ih (d :: acc) tok h c hc with h' | h'
      · exact Or.inl (List.mem_cons_of_mem _ h')
      · rcases List.mem_cons.1 h' with h'' | h''
        · exact Or.inl (h'' ▸ List.mem_cons_self _ _)
        · exact Or.inr h''

/-- Stripping end characters keeps a subset of the token's characters. -/
theorem mem_stripBy {p : Nat → Bool} {l : List Nat} {c : Nat}
    (h : c ∈ stripBy p l) : c ∈ l := by
  unfold stripBy at h
  have h1 := List.mem_reverse.1 h
  have h2 := (List.dropWhile_sublist p).mem h1
  have h3 := List.mem_reverse.1 h2
  exact (List.dropWhile_sublist p).mem h3

/-- C1 (amended): for an index out of range of the original-case split, the
name check falls back to the lowercased hyphen-stripped token itself; on a
token without uppercase letters the Name Heuristic then reduces to membership
in the common-first-names set (so such a token can still be excluded as a
name); and every token the pipeline feeds to the check is uppercase-free. -/
theorem keyword_c1_amended :
    (∀ ows i w, ows.length ≤ i → origWordAt ows i w = w) ∧
    (∀ w : List Nat, (∀ c ∈ w, isUpperN c = false) →
      is_likely_name w = COMMON_NAMES.contains w) ∧
    (∀ text tok c,
      tok ∈ splitWs (punctToSpace (removeNumbers (pyLower text))) →
      c ∈ pyStrip [45] tok → isUpperN c = false) := by
  refine ⟨?_, ?_, ?_⟩
  · intro ows i w hlen
    unfold origWordAt
    rw [List.get?_eq_none.2 hlen]
  · intro w h
    unfold is_likely_name
    rw [pyLower_self h]
    cases w with
    | nil => decide
    | cons a rest =>
      have ha : isUpperN a = false := h a (List.mem_cons_self _ _)
      simp only [List.isEmpty_cons, Bool.false_eq_true, if_false]
      by_cases hn : COMMON_NAMES.contains (a :: rest) = true
      · rw [if_pos hn, hn]
      · rw [if_neg hn, if_neg (by simp [List.headD_cons, ha])]
        simp only [Bool.not_eq_true] at hn
        exact hn.symm
  · intro text tok c htok hc
    have h1 : ∀ d ∈ pyLower text, isUpperN d = false := by
      intro d hd
      rcases List.mem_map.1 hd with ⟨e, _, he⟩
      exact he ▸ isUpperN_pyLowerChar e
    have h2 : ∀ d ∈ removeNumbers (pyLower text), isUpperN d = false :=
      fun d hd => h1 d (mem_rnAux _ 0 hd)
    have h3 := mem_punctToSpace_noUpper h2
    have hct : c ∈ tok := mem_stripBy hc
    rcases mem_splitWsGo _ [] tok htok c hct with h' | h'
    · exact h3 c h'
    · simp at h'

/-- Witness for the amended C1 at the out-of-range token of `x.y john`. -/
theorem keyword_c1_amended_w :
    origWordAt [strL "x.y", strL "john"] 2 (strL "john") = strL "john" ∧
    is_likely_name (strL "john") = COMMON_NAMES.contains (strL "john") :=
  ⟨keyword_c1_amended.1 [strL "x.y", strL "john"] 2 (strL "john") (by decide),
   keyword_c1_amended.2.1 (strL "john") (by decide)⟩
